import Mathlib

set_option maxRecDepth 8000
set_option maxHeartbeats 4000000

/-!
Verification of the USTAR read-only archive accessor (`lib_tar.c`).

The archive is an already-open seekable byte stream (`tar_fd` in the
source); it is modelled as a `ByteStream`: a length and a byte function
(random access, exactly what `lseek` + `read` provide).  Every operation
of the source rewinds the stream and then only ever seeks forward, so the
sequential C loops are modelled as recursions on an explicit bound
(`fuel`) which the public wrappers instantiate with `len + 1`; each
iteration consumes at least one 512-byte header block, so the bound is
never binding and only makes the recursion structural.

C strings are modelled as NUL-free `List Nat` values; reading a
NUL-terminated field of a header block is `takeWhile (· != 0)`.
-/

/-- The already-open archive handle: a byte stream of known length with
random access (bytes past `len` are never read by the model). -/
structure ByteStream where
  len : Nat
  byte : Nat → Nat

/-- The 512 bytes at position `pos` of the stream, i.e. the result of
`read(tar_fd, &hdr, sizeof(hdr))` after a seek to `pos`.  The enclosing
loops only use it when `pos + 512 ≤ len` (a complete read). -/
def blockAt (s : ByteStream) (pos : Nat) : List Nat :=
  (List.range 512).map (fun i => s.byte (pos + i))

/-- The bytes of a NUL-terminated C string starting at the head of `l`
(`%s` / `strcpy` semantics: read until the first NUL byte). -/
def cstr (l : List Nat) : List Nat := l.takeWhile (fun b => b != 0)

/-- `strncmp(a, b, n) == 0`: compare at most `n` bytes, stopping early at a
difference or at a NUL byte that both sides share. -/
def strncmpEq : List Nat → List Nat → Nat → Bool
  | _, _, 0 => true
  | [], [], _ + 1 => true
  | [], _ :: _, _ + 1 => false
  | _ :: _, [], _ + 1 => false
  | a :: as, b :: bs, n + 1 =>
    if a != b then false else if a == 0 then true else strncmpEq as bs n

/-- `strncmp` applied to two NUL-free lists regarded as C strings (so each
gets its terminating NUL appended). -/
def strncmpCEq (a b : List Nat) (n : Nat) : Bool :=
  strncmpEq (a ++ [0]) (b ++ [0]) n

/-- Modelled from the spec: `lib_tar.h` is not part of `src/`; its octal
field reader `TAR_INT` is an `strtol(field, NULL, 8)`, which first skips
`isspace` bytes. -/
def isSpaceByte (b : Nat) : Bool := b == 32 || (decide (9 ≤ b) && decide (b ≤ 13))

/-- ASCII bytes of octal digits. -/
def isOctDigit (b : Nat) : Bool := decide (48 ≤ b) && decide (b ≤ 55)

/-- Modelled from the spec: "octal ASCII numeric field", read in
`strtol`-style: skip leading whitespace, then fold the octal digits. -/
def parseOctal (l : List Nat) : Nat :=
  ((l.dropWhile isSpaceByte).takeWhile isOctDigit).foldl (fun a d => a * 8 + (d - 48)) 0

/-- Modelled from the spec: `TAR_INT(hdr.field)` reads the octal field that
starts at byte `off` of the 512-byte header record. -/
def TAR_INT (blk : List Nat) (off : Nat) : Nat := parseOctal (blk.drop off)

/-- `((size + 511) / 512) * 512`, the rounded-up data span of an entry. -/
def roundUp512 (n : Nat) : Nat := ((n + 511) / 512) * 512

/-- `is_empty_block`: a header block made entirely of NUL bytes
(the end-of-archive marker). -/
def is_empty_block (blk : List Nat) : Bool := blk.all (fun b => b == 0)

/-- `header_path`: rebuild the full path of an entry.  Header layout
(modelled from the spec, `lib_tar.h` not in `src/`): `name` at offset 0,
`prefix` at offset 345.  `snprintf(out, 256, ...)` truncates to 255 bytes. -/
def header_path (blk : List Nat) : List Nat :=
  if blk.getD 345 0 != 0 then (cstr (blk.drop 345) ++ [47] ++ cstr blk).take 255
  else (cstr blk).take 255

/-- The per-entry match test of `find_header` (lines 53-67 of the source).
`typeflag` is byte 156; `DIRTYPE` is the byte of the character 5 (53).
For a directory, the query may also omit the stored trailing slash:
`strncmp(name, path, len - 1) == 0 && path[len - 1] == 0`. -/
def headerMatches (blk path : List Nat) : Bool :=
  let name := header_path blk
  if blk.getD 156 0 == 53 then
    name == path ||
      (decide (0 < name.length) && name.getLast? == some 47 &&
        strncmpCEq name path (name.length - 1) &&
        (path ++ [0]).getD (name.length - 1) 0 == 0)
  else name == path

/-- The scanning loop of `find_header`: read a 512-byte header (stop when
the read comes back short, i.e. `pos + 512 > len`, or at the end marker),
test the entry, and otherwise seek forward past the rounded-up data span.
The returned offset is the data offset (`lseek(tar_fd, 0, SEEK_CUR)` right
after reading the header). -/
def findHeaderAux (path : List Nat) : Nat → ByteStream → Nat → Option (List Nat × Nat)
  | 0, _, _ => none
  | fuel + 1, s, pos =>
    if pos + 512 ≤ s.len then
      let blk := blockAt s pos
      if is_empty_block blk then none
      else if headerMatches blk path then some (blk, pos + 512)
      else findHeaderAux path fuel s (pos + 512 + roundUp512 (TAR_INT blk 124))
    else none

/-- `find_header`: rewind to position 0 and scan.  The bound `len + 1` is
never reached (each iteration advances the position by at least 512). -/
def find_header (s : ByteStream) (path : List Nat) : Option (List Nat × Nat) :=
  findHeaderAux path (s.len + 1) s 0

/-- Strip one trailing slash: `if (len > 0 && s[len-1] == '/') s[len-1] = 0`. -/
def stripSlash (l : List Nat) : List Nat :=
  if l.getLast? == some 47 then l.dropLast else l

/-- The hop loop of `resolve_path` (lines 107-128): at most 16 lookups; a
symbolic link (`typeflag` = byte of the character 2, i.e. 50) replaces the
current path by its `linkname` (offset 157, copied by a 255-bounded
`strncpy`, trailing slash stripped). -/
def resolvePathAux (s : ByteStream) : Nat → List Nat → Option (List Nat × Nat × List Nat)
  | 0, _ => none
  | fuel + 1, current =>
    match find_header s current with
    | none => none
    | some (blk, off) =>
      if blk.getD 156 0 == 50 then
        resolvePathAux s fuel (stripSlash ((cstr (blk.drop 157)).take 255))
      else some (blk, off, header_path blk)

/-- `resolve_path`: copy the query into a 256-byte buffer (truncation at
255 bytes), strip a trailing slash, then follow links for at most 16 hops. -/
def resolve_path (s : ByteStream) (path : List Nat) : Option (List Nat × Nat × List Nat) :=
  resolvePathAux s 16 (stripSlash (path.take 255))

/-- Magic check of `check_archive` (line 161): `strncmp(magic, TMAGIC, 6)`
with `TMAGIC = "ustar"` (so its six bytes are `u s t a r NUL`), plus the
explicit `magic[5] == 0` test.  `magic` is at offset 257. -/
def magicOk (blk : List Nat) : Bool :=
  strncmpEq ((blk.drop 257).take 6) [117, 115, 116, 97, 114, 0] 6 &&
    blk.getD 262 0 == 0

/-- Version check (line 165): `strncmp(version, "00", 2)`; `version` is the
two bytes at offset 263. -/
def versionOk (blk : List Nat) : Bool :=
  strncmpEq ((blk.drop 263).take 2) [48, 48, 0] 2

/-- Unsigned sum of a list of bytes. -/
def byteSum (l : List Nat) : Nat := l.foldl (· + ·) 0

/-- The header record with its checksum field (offset 148, 8 bytes)
replaced by eight space characters, as in lines 171-173. -/
def blankChksum (blk : List Nat) : List Nat :=
  blk.take 148 ++ List.replicate 8 32 ++ blk.drop 156

/-- Checksum check (lines 169-181): the recomputed byte sum must equal the
decoded `chksum` field. -/
def chksumOk (blk : List Nat) : Bool :=
  byteSum (blankChksum blk) == TAR_INT blk 148

/-- The loop of `check_archive`: magic, then version, then checksum; count
a valid header and skip its data span. -/
def checkArchiveAux : Nat → ByteStream → Nat → Nat → Int
  | 0, _, _, count => (count : Int)
  | fuel + 1, s, pos, count =>
    if pos + 512 ≤ s.len then
      let blk := blockAt s pos
      if is_empty_block blk then (count : Int)
      else if !magicOk blk then -1
      else if !versionOk blk then -2
      else if !chksumOk blk then -3
      else checkArchiveAux fuel s (pos + 512 + roundUp512 (TAR_INT blk 124)) (count + 1)
    else (count : Int)

/-- `check_archive`: rewind and validate every header up to the end marker
(or end of stream), returning the count of valid headers or the negative
code of the first failing check. -/
def check_archive (s : ByteStream) : Int := checkArchiveAux (s.len + 1) s 0 0

/-- Specification-side scan: the list of non-end-marker header blocks that
the sequential traversal of the source visits (same forward jumps as the
code, stopping at the first all-zero block or at end of stream). -/
def scanBlocksAux : Nat → ByteStream → Nat → List (List Nat)
  | 0, _, _ => []
  | fuel + 1, s, pos =>
    if pos + 512 ≤ s.len then
      let blk := blockAt s pos
      if is_empty_block blk then []
      else blk :: scanBlocksAux fuel s (pos + 512 + roundUp512 (TAR_INT blk 124))
    else []

/-- The header blocks of the archive, in scan order. -/
def scanBlocks (s : ByteStream) : List (List Nat) := scanBlocksAux (s.len + 1) s 0

/-- The child test of `list` (lines 322-325): the reconstructed path starts
with `base` (`strncmp(name, base, base_len) == 0`), differs from `base`,
and its remainder after `base` has its first slash, if any, in last
position (`!slash || slash[1] == 0`). -/
def childSel (base name : List Nat) : Bool :=
  strncmpCEq name base base.length && name != base &&
    (let r := (name.drop base.length).dropWhile (fun b => b != 47)
     r == [] || r == [47])

/-- The scanning loop of `list` (lines 310-337): every matching entry is
written (and only then counted) while `count < capacity`. -/
def listAux (base : List Nat) (capacity : Nat) :
    Nat → ByteStream → Nat → List (List Nat) → Nat → List (List Nat) × Nat
  | 0, _, _, acc, count => (acc, count)
  | fuel + 1, s, pos, acc, count =>
    if pos + 512 ≤ s.len then
      let blk := blockAt s pos
      if is_empty_block blk then (acc, count)
      else
        let name := header_path blk
        let next := pos + 512 + roundUp512 (TAR_INT blk 124)
        if childSel base name && decide (count < capacity) then
          listAux base capacity fuel s next (acc ++ [name]) (count + 1)
        else listAux base capacity fuel s next acc count
    else (acc, count)

/-- Normalisation of the resolved directory path (lines 295-299): append a
slash when the path is non-empty and does not already end with one. -/
def normalizeSlash (l : List Nat) : List Nat :=
  if decide (0 < l.length) && l.getLast? != some 47 then l ++ [47] else l

/-- `list`: an empty query lists the archive root; otherwise the query is
resolved through the link resolver and must denote a directory, whose
canonical path (normalised to end with a slash) becomes the filter base.
`none` models the `return 0` (no such directory) outcomes. -/
def list (s : ByteStream) (path : List Nat) (capacity : Nat) :
    Option (List (List Nat) × Nat) :=
  if path != [] then
    match resolve_path s path with
    | none => none
    | some (blk, _, rp) =>
      if blk.getD 156 0 != 53 then none
      else some (listAux (normalizeSlash rp) capacity (s.len + 1) s 0 [] 0)
  else some (listAux [] capacity (s.len + 1) s 0 [] 0)

/-- `read(fd, buf, n)` at absolute position `pos` of the stream: the number
of bytes actually delivered. -/
def streamRead (s : ByteStream) (pos n : Nat) : Nat := min n (s.len - pos)

/-- `read_file` (lines 361-396).  The first component is the C return value
(`-1` invalid entry, `-2` offset out of range, otherwise remaining bytes);
the second is `some r` when the final read delivered `r` bytes into `dest`
(and `*len` was set to `r`), `none` when the call failed before reading. -/
def read_file (s : ByteStream) (path : List Nat) (offset cap : Nat) : Int × Option Nat :=
  match resolve_path s path with
  | none => (-1, none)
  | some (blk, data_off, _) =>
    if !(blk.getD 156 0 == 48 || blk.getD 156 0 == 0) then (-1, none)
    else
      let size := TAR_INT blk 124
      if decide (size < offset) then (-2, none)
      else
        let to_read := min (size - offset) cap
        let r := streamRead s (data_off + offset) to_read
        if decide (offset + r < size) then (((size : Int) - offset - r), some r)
        else (0, some r)

/-- `exists` (named `tar_exists` here, `exists` being reserved in Lean):
one `find_header` pass, no link following. -/
def tar_exists (s : ByteStream) (path : List Nat) : Bool := (find_header s path).isSome

/-- `is_dir`: one `find_header` pass, then test the entry's own typeflag. -/
def is_dir (s : ByteStream) (path : List Nat) : Bool :=
  match find_header s path with
  | none => false
  | some (blk, _) => blk.getD 156 0 == 53

/-- `is_file`: `REGTYPE` is the byte of the character 0 (48), `AREGTYPE`
is the NUL byte. -/
def is_file (s : ByteStream) (path : List Nat) : Bool :=
  match find_header s path with
  | none => false
  | some (blk, _) => blk.getD 156 0 == 48 || blk.getD 156 0 == 0

/-- `is_symlink`: `SYMTYPE` is the byte of the character 2 (50). -/
def is_symlink (s : ByteStream) (path : List Nat) : Bool :=
  match find_header s path with
  | none => false
  | some (blk, _) => blk.getD 156 0 == 50

/-! Concrete archive builder, used to produce the explicit archives of the
witnesses and counterexamples.  It lays fields out per the on-stream format
of the spec (name at 0, mode/uid/gid at 100, size at 124, mtime at 136,
chksum at 148, typeflag at 156, linkname at 157, magic at 257, version at
263, uname/gname at 265, devmajor/devminor at 329, prefix at 345, padding
to 512) and fills the checksum field with the octal byte-sum of the record
with that field blanked to spaces.  Bytes are produced by offset arithmetic
(a function of the position), matching the random-access stream model. -/

/-- Octal digits of `n`, least significant first (`fuel ≥ n` suffices). -/
def octDigitsRev : Nat → Nat → List Nat
  | 0, _ => []
  | fuel + 1, n => if n = 0 then [] else n % 8 :: octDigitsRev fuel (n / 8)

/-- ASCII octal rendering of `n`, most significant digit first. -/
def octalBytes (n : Nat) : List Nat := ((octDigitsRev n n).reverse).map (fun d => d + 48)

/-- One archive entry, as fed to the builder. -/
structure TarEntry where
  ename : List Nat
  esize : Nat
  etype : Nat
  elink : List Nat
  epfx : List Nat
  edata : List Nat

/-- Byte `o` of the header record of `e`, for every field except the
checksum (offsets 148-155, handled by the callers below).  Text fields are
NUL-padded to their width; the numeric fields that the accessor never
decodes hold ASCII zeros. -/
def headerByteBase (e : TarEntry) (o : Nat) : Nat :=
  if o < 100 then e.ename.getD o 0
  else if o < 124 then 48
  else if o < 136 then (octalBytes e.esize ++ [0]).getD (o - 124) 0
  else if o < 148 then 48
  else if o = 156 then e.etype
  else if o < 257 then e.elink.getD (o - 157) 0
  else if o < 263 then [117, 115, 116, 97, 114, 0].getD (o - 257) 0
  else if o < 265 then 48
  else if o < 329 then 0
  else if o < 345 then 48
  else if o < 500 then e.epfx.getD (o - 345) 0
  else 0

/-- Byte `o` of the header record with the checksum field blanked to
spaces (the record over which the checksum is computed). -/
def rawHeaderByte (e : TarEntry) (o : Nat) : Nat :=
  if 148 ≤ o ∧ o < 156 then 32 else headerByteBase e o

/-- The checksum of an entry's header: unsigned byte-sum of the blanked
record. -/
def headerChk (e : TarEntry) : Nat :=
  byteSum ((List.range 512).map (rawHeaderByte e))

/-- Byte `o` of the complete header record of `e`. -/
def headerByte (e : TarEntry) (o : Nat) : Nat :=
  if 148 ≤ o ∧ o < 156 then (octalBytes (headerChk e) ++ [0]).getD (o - 148) 0
  else headerByteBase e o

/-- The stream span of one entry: its header block plus its rounded-up
data region (builder restriction: entries carry at most 512 data bytes). -/
def entrySpan (e : TarEntry) : Nat := 512 + roundUp512 e.esize

/-- Byte `i` of one entry's span: header record, then NUL-padded data. -/
def entryByte (e : TarEntry) (i : Nat) : Nat :=
  if i < 512 then headerByte e i else e.edata.getD (i - 512) 0

/-- Byte `i` of the archive holding the entries in order; every position
past the entries reads 0, giving the all-zero end marker. -/
def tarBytes : List TarEntry → Nat → Nat
  | [], _ => 0
  | e :: es, i => if i < entrySpan e then entryByte e i else tarBytes es (i - entrySpan e)

/-- Length of the archive: the entry spans plus one end-marker block. -/
def tarLen : List TarEntry → Nat
  | [] => 512
  | e :: es => entrySpan e + tarLen es

/-- A full archive: the entries in order, then one all-zero end marker. -/
def mkTar (es : List TarEntry) : ByteStream := ⟨tarLen es, tarBytes es⟩

/-- A regular-file entry. -/
def fileE (nm data : List Nat) : TarEntry := ⟨nm, data.length, 48, [], [], data⟩

/-- A directory entry. -/
def dirE (nm : List Nat) : TarEntry := ⟨nm, 0, 53, [], [], []⟩

/-- A symbolic-link entry pointing at `tgt`. -/
def slE (nm tgt : List Nat) : TarEntry := ⟨nm, 0, 50, tgt, [], []⟩

/-- Name of the k-th link of a chain archive. -/
def linkName (k : Nat) : List Nat := [108, 65 + k]

/-- A chain of `n` symbolic links, the last pointing at the regular file
`f` (byte 102), which is the final entry. -/
def chainTar (n : Nat) : ByteStream :=
  mkTar (((List.range n).map
    (fun k => slE (linkName k) (if k + 1 = n then [102] else linkName (k + 1)))) ++
    [fileE [102] []])

/-- A single self-referential symbolic link `s -> s`. -/
def selfTar : ByteStream := mkTar [slE [115] [115]]

/-- Directory `d/` containing the file `d/x`, plus a symlink `s -> d`. -/
def tarA : ByteStream :=
  mkTar [dirE [100, 47], fileE [100, 47, 120] [], slE [115] [100]]

/-- The listing example of the spec: directory `dir/` containing files
`dir/a`, `dir/b`, subdirectory `dir/c/` (which contains `dir/c/d`) and
subdirectory `dir/e/`. -/
def tar7 : ByteStream :=
  mkTar [dirE [100, 105, 114, 47], fileE [100, 105, 114, 47, 97] [],
    fileE [100, 105, 114, 47, 98] [], dirE [100, 105, 114, 47, 99, 47],
    fileE [100, 105, 114, 47, 99, 47, 100] [], dirE [100, 105, 114, 47, 101, 47]]

/-- A single regular file `f` holding ten bytes. -/
def tarF : ByteStream := mkTar [fileE [102] (List.replicate 10 97)]

/-- A valid entry followed by a header whose magic byte 0 is corrupted
(which also desynchronises the recorded checksum): byte 769 is byte 257
of the second header block. -/
def tarBad : ByteStream :=
  ⟨1536, fun i => if i = 769 then 48 else tarBytes [fileE [97] [], fileE [98] []] i⟩

/-- The spec's wording of the child condition of the Directory Lister: the
reconstructed path starts with the base, differs from it, and the remainder
after the base contains no slash other than possibly one trailing slash
(every byte of the remainder except the last differs from the slash). -/
def childSpec (base name : List Nat) : Prop :=
  name.take base.length = base ∧ name ≠ base ∧
    ∀ x ∈ (name.drop base.length).dropLast, x ≠ 47

/-- The child condition is decidable (used to state the filter form). -/
instance childSpecDec (base name : List Nat) : Decidable (childSpec base name) := by
  unfold childSpec
  infer_instance

/-- The base path that `list` filters with: empty for the archive root,
otherwise the resolved canonical path normalised to end with a slash. -/
def listBase (s : ByteStream) (path : List Nat) : List Nat :=
  if path != [] then
    match resolve_path s path with
    | some (_, _, rp) => normalizeSlash rp
    | none => []
  else []

/-- Bytes of a decoded NUL-terminated field are never NUL. -/
theorem mem_cstr {x : Nat} {l : List Nat} (h : x ∈ cstr l) : x ≠ 0 := by
  have hx := List.mem_takeWhile_imp h
  simpa using hx

/-- A reconstructed entry path contains no NUL byte. -/
theorem header_path_nf (blk : List Nat) : ∀ x ∈ header_path blk, x ≠ 0 := by
  intro x hx
  unfold header_path at hx
  split at hx
  · have hx2 := List.mem_of_mem_take hx
    rcases List.mem_append.1 hx2 with h1 | h2
    · rcases List.mem_append.1 h1 with h3 | h4
      · exact mem_cstr h3
      · simp at h4
        omega
    · exact mem_cstr h2
  · exact mem_cstr (List.mem_of_mem_take hx)

/-- `strncmp`-equality of two NUL-free C strings over `n` bytes is equality
of their first `n` characters. -/
theorem strncmpCEq_iff :
    ∀ (n : Nat) (a b : List Nat), 0 ∉ a → 0 ∉ b →
      (strncmpCEq a b n = true ↔ a.take n = b.take n) := by
  intro n
  induction n with
  | zero => intro a b _ _; simp [strncmpCEq, strncmpEq]
  | succ n ih =>
    intro a b ha hb
    cases a with
    | nil =>
      cases b with
      | nil => simp [strncmpCEq, strncmpEq]
      | cons y ys =>
        have hy : (0 : Nat) ≠ y := fun h => hb (by simp [← h])
        simp [strncmpCEq, strncmpEq, hy]
    | cons x xs =>
      have hx : (x : Nat) ≠ 0 := fun h => ha (by simp [← h])
      cases b with
      | nil =>
        simp [strncmpCEq, strncmpEq, hx]
      | cons y ys =>
        by_cases hxy : x = y
        · subst hxy
          have hxs : 0 ∉ xs := fun h => ha (List.mem_cons_of_mem _ h)
          have hys : 0 ∉ ys := fun h => hb (List.mem_cons_of_mem _ h)
          have ih2 := ih xs ys hxs hys
          simp only [strncmpCEq] at ih2
          simp [strncmpCEq, strncmpEq, hx, ih2]
        · simp [strncmpCEq, strncmpEq, hxy]

/-- The slash test of `list` (first slash of the remainder, if any, is its
final byte) phrased as the spec words it: no slash before the last byte. -/
theorem dropWhile_slash_iff (r : List Nat) :
    ((r.dropWhile (fun b => b != 47) = [] ∨ r.dropWhile (fun b => b != 47) = [47]))
      ↔ ∀ x ∈ r.dropLast, x ≠ 47 := by
  induction r with
  | nil => simp
  | cons c r ih =>
    by_cases hc : c = 47
    · subst hc
      cases r with
      | nil => simp
      | cons d r2 =>
        simp only [List.dropWhile_cons]
        simp [List.dropLast_cons₂]
    · cases r with
      | nil => simp [List.dropWhile_cons, hc]
      | cons d r2 =>
        have hstep : List.dropWhile (fun b => b != 47) (c :: d :: r2)
            = List.dropWhile (fun b => b != 47) (d :: r2) := by
          rw [List.dropWhile_cons]
          simp [hc]
        rw [hstep, List.dropLast_cons₂, ih]
        simp [hc]

/-- The child test of `list` is exactly the spec's membership condition. -/
theorem childSel_iff (base name : List Nat) (hb : 0 ∉ base) (hn : 0 ∉ name) :
    childSel base name = true ↔ childSpec base name := by
  have h1 : (strncmpCEq name base base.length = true) ↔ name.take base.length = base := by
    rw [strncmpCEq_iff base.length name base hn hb, List.take_length]
  have h2 := dropWhile_slash_iff (name.drop base.length)
  simp only [childSel, childSpec, Bool.and_eq_true, Bool.or_eq_true, beq_iff_eq,
    bne_iff_ne, ne_eq, h1]
  rw [h2]
  tauto

/-- The scanning loop of `list` writes exactly the scanned entry paths that
pass the child test, in order, truncated at capacity, and counts exactly the
written entries. -/
theorem listAux_eq :
    ∀ (fuel : Nat) (s : ByteStream) (pos : Nat) (base : List Nat) (cap : Nat)
      (acc : List (List Nat)) (count : Nat),
      s.len - pos < fuel → count = acc.length → count ≤ cap →
      listAux base cap fuel s pos acc count =
        (acc ++ (((scanBlocksAux fuel s pos).map header_path).filter (childSel base)).take
            (cap - count),
         count + min ((((scanBlocksAux fuel s pos).map header_path).filter
            (childSel base)).length) (cap - count)) := by
  intro fuel
  induction fuel with
  | zero => intro s pos base cap acc count h; omega
  | succ fuel ih =>
    intro s pos base cap acc count hf hc hcap
    simp only [listAux, scanBlocksAux]
    by_cases hlen : pos + 512 ≤ s.len
    · rw [if_pos hlen, if_pos hlen]
      by_cases hemp : is_empty_block (blockAt s pos) = true
      · rw [if_pos hemp, if_pos hemp]
        simp
      · rw [if_neg hemp, if_neg hemp]
        have hnext :
            s.len - (pos + 512 + roundUp512 (TAR_INT (blockAt s pos) 124)) < fuel := by
          omega
        by_cases hsel : childSel base (header_path (blockAt s pos)) = true
        · by_cases hcnt : count < cap
          · rw [if_pos (by simp [hsel, hcnt])]
            rw [ih s _ base cap (acc ++ [header_path (blockAt s pos)]) (count + 1) hnext
              (by simp [hc]) (by omega)]
            simp only [List.map_cons, List.filter_cons_of_pos hsel]
            obtain ⟨k, hk⟩ : ∃ k, cap - count = k + 1 := ⟨cap - count - 1, by omega⟩
            rw [hk, List.take_succ_cons]
            simp only [Prod.mk.injEq]
            constructor
            · have hkk : cap - (count + 1) = k := by omega
              rw [hkk]
              simp [List.append_assoc]
            · simp only [List.length_cons]
              omega
          · rw [if_neg (by simp [hcnt])]
            rw [ih s _ base cap acc count hnext hc hcap]
            simp only [List.map_cons, List.filter_cons_of_pos hsel]
            have h0 : cap - count = 0 := by omega
            simp [h0]
        · rw [if_neg (by simp [hsel])]
          rw [ih s _ base cap acc count hnext hc hcap]
          rw [List.map_cons, List.filter_cons_of_neg (by simpa using hsel)]
    · rw [if_neg hlen, if_neg hlen]
      simp

/-- The validator visits the scanned headers in order and reports, for the
first invalid one, the code of its first failing check (magic before
version before checksum); if all scanned headers are valid it adds their
number to the running count. -/
theorem checkArchiveAux_eq :
    ∀ (fuel : Nat) (s : ByteStream) (pos count : Nat), s.len - pos < fuel →
      checkArchiveAux fuel s pos count =
        match (scanBlocksAux fuel s pos).find?
            (fun b => !(magicOk b && versionOk b && chksumOk b)) with
        | some b => if !magicOk b then -1 else if !versionOk b then -2 else -3
        | none => ((count + (scanBlocksAux fuel s pos).length : Nat) : Int) := by
  intro fuel
  induction fuel with
  | zero => intro s pos count h; omega
  | succ fuel ih =>
    intro s pos count hf
    simp only [checkArchiveAux, scanBlocksAux]
    by_cases hlen : pos + 512 ≤ s.len
    · rw [if_pos hlen, if_pos hlen]
      by_cases hemp : is_empty_block (blockAt s pos) = true
      · rw [if_pos hemp, if_pos hemp]
        simp
      · rw [if_neg hemp, if_neg hemp]
        have hnext :
            s.len - (pos + 512 + roundUp512 (TAR_INT (blockAt s pos) 124)) < fuel := by
          omega
        by_cases hm : magicOk (blockAt s pos) = true
        · by_cases hv : versionOk (blockAt s pos) = true
          · by_cases hck : chksumOk (blockAt s pos) = true
            · rw [List.find?_cons_of_neg _ (by simp [hm, hv, hck])]
              rw [if_neg (by simp [hm]), if_neg (by simp [hv]), if_neg (by simp [hck])]
              rw [ih s _ (count + 1) hnext]
              cases hfind : (scanBlocksAux fuel s
                  (pos + 512 + roundUp512 (TAR_INT (blockAt s pos) 124))).find?
                  (fun b => !(magicOk b && versionOk b && chksumOk b)) with
              | none =>
                simp only [hfind, List.length_cons]
                push_cast
                ring
              | some b => simp only [hfind]
            · rw [List.find?_cons_of_pos _ (by simp [hck])]
              rw [if_neg (by simp [hm]), if_neg (by simp [hv]), if_pos (by simp [hck])]
              simp [hm, hv]
          · rw [List.find?_cons_of_pos _ (by simp [hv])]
            rw [if_neg (by simp [hm]), if_pos (by simp [hv])]
            simp [hm, hv]
        · rw [List.find?_cons_of_pos _ (by simp [hm])]
          rw [if_pos (by simp [hm])]
          simp [hm]
    · rw [if_neg hlen, if_neg hlen]
      simp

/-- C3: `check_archive` validates magic before version before checksum, so
an archive whose first defective header has both a bad magic and a bad
checksum reports the magic error (-1) and never the checksum error (-3). -/
theorem check_archive_magic_before_checksum (s : ByteStream) (b : List Nat)
    (hfind : (scanBlocks s).find?
      (fun x => !(magicOk x && versionOk x && chksumOk x)) = some b)
    (hmagic : magicOk b = false) (hck : chksumOk b = false) :
    check_archive s = -1 ∧ check_archive s ≠ -3 := by
  have h := checkArchiveAux_eq (s.len + 1) s 0 0 (by omega)
  unfold scanBlocks at hfind
  unfold check_archive
  rw [h, hfind]
  simp [hmagic]

/-- Witness for C3: a concrete archive whose first header is valid and
whose second header has both a corrupted magic and a stale checksum. -/
theorem check_archive_magic_before_checksum_witness :
    check_archive tarBad = -1 ∧ check_archive tarBad ≠ -3 :=
  check_archive_magic_before_checksum tarBad (blockAt tarBad 512)
    (by decide) (by decide) (by decide)

/-- C4: on an archive all of whose scanned headers are valid (magic
`ustar` with trailing NUL, version `00`, checksum equal to the blanked
byte sum), `check_archive` returns exactly the number of non-end-marker
headers, the scan stopping at the first all-zero block or at stream end. -/
theorem check_archive_counts_valid_headers (s : ByteStream)
    (hval : ∀ b ∈ scanBlocks s,
      magicOk b = true ∧ versionOk b = true ∧ chksumOk b = true) :
    check_archive s = ((scanBlocks s).length : Int) := by
  have h := checkArchiveAux_eq (s.len + 1) s 0 0 (by omega)
  have hnone : (scanBlocks s).find?
      (fun x => !(magicOk x && versionOk x && chksumOk x)) = none := by
    apply List.find?_eq_none.2
    intro x hx
    obtain ⟨h1, h2, h3⟩ := hval x hx
    simp [h1, h2, h3]
  unfold scanBlocks at hnone
  unfold check_archive scanBlocks
  rw [h, hnone]
  simp

/-- Witness for C4: a concrete well-formed three-entry archive. -/
theorem check_archive_counts_valid_headers_witness :
    check_archive tarA = ((scanBlocks tarA).length : Int) ∧ (scanBlocks tarA).length = 3 :=
  ⟨check_archive_counts_valid_headers tarA (by decide), by decide⟩

/-- C1 counterexample: a chain of 16 symbolic links whose final target is a
valid regular file does NOT resolve — the 16 lookups of the hop loop are
exhausted by the links themselves, so the claim's depth-16 success bound
fails on the code. -/
theorem resolve_chain16_counterexample :
    resolve_path (chainTar 16) (linkName 0) = none := by decide

/-- C1 amended: the hop loop performs at most 16 lookups and the last one
must hit a non-link entry, so a chain of 15 links pointing to a valid file
resolves to that file, a chain of 16 links fails with NotFound, and a
self-referential link fails with NotFound. -/
theorem resolve_chain_depth_bound :
    resolve_path (chainTar 15) (linkName 0)
        = some (blockAt (chainTar 15) 7680, 8192, [102]) ∧
      resolve_path (chainTar 16) (linkName 0) = none ∧
      resolve_path selfTar [115] = none := by
  refine ⟨by decide, by decide, by decide⟩

/-- C2: the directory match rule of `find_header` accepts exactly the
reconstructed path itself or, when the stored path ends with a slash, the
query lacking that slash; consequently `resolve_path` treats a query with
and without a trailing slash identically (the resolver strips it before
the first lookup). -/
theorem find_header_dir_trailing_slash :
    (∀ (blk path : List Nat), 0 ∉ path → blk.getD 156 0 = 53 →
      (headerMatches blk path = true ↔
        header_path blk = path ∨
          ((header_path blk).getLast? = some 47 ∧ path = (header_path blk).dropLast))) ∧
    (∀ (s : ByteStream) (p : List Nat), p.length ≤ 254 → p.getLast? ≠ some 47 →
      resolve_path s (p ++ [47]) = resolve_path s p) := by
  constructor
  · intro blk path hp hd
    have hn : 0 ∉ header_path blk := fun h => header_path_nf blk 0 h rfl
    simp only [headerMatches, hd, beq_self_eq_true, if_true]
    simp only [Bool.or_eq_true, Bool.and_eq_true, beq_iff_eq, decide_eq_true_eq]
    apply or_congr Iff.rfl
    constructor
    · rintro ⟨⟨⟨hlen, hlast⟩, hcmp⟩, hgetd⟩
      have hgetd2 : (path ++ [0]).getD ((header_path blk).length - 1) 0 = 0 := hgetd
      have key := (strncmpCEq_iff ((header_path blk).length - 1) (header_path blk) path
        hn hp).1 hcmp
      have hlq := congrArg List.length key
      simp only [List.length_take] at hlq
      have hple : (header_path blk).length - 1 ≤ path.length := by omega
      have hpe : path.length = (header_path blk).length - 1 := by
        by_contra hne
        have hlt : (header_path blk).length - 1 < path.length := by omega
        rw [List.getD_append _ _ _ _ hlt] at hgetd2
        have hmem : path.getD ((header_path blk).length - 1) 0 ∈ path := by
          rw [List.getD_eq_getElem _ _ hlt]
          exact List.getElem_mem hlt
        rw [hgetd2] at hmem
        exact hp hmem
      refine ⟨hlast, ?_⟩
      rw [List.dropLast_eq_take, key]
      exact (List.take_of_length_le (by omega)).symm
    · rintro ⟨hlast, hpath⟩
      have hne : header_path blk ≠ [] := by
        intro h
        rw [h] at hlast
        simp at hlast
      have hlen : 0 < (header_path blk).length := List.length_pos.2 hne
      have hplen : path.length = (header_path blk).length - 1 := by
        rw [hpath, List.length_dropLast]
      refine ⟨⟨⟨hlen, hlast⟩, ?_⟩, ?_⟩
      · apply (strncmpCEq_iff ((header_path blk).length - 1) (header_path blk) path
          hn hp).2
        have htk : path.take ((header_path blk).length - 1) = path :=
          List.take_of_length_le (by omega)
        rw [htk, hpath, List.dropLast_eq_take]
      · show (path ++ [0]).getD ((header_path blk).length - 1) 0 = 0
        rw [List.getD_append_right _ _ _ _ (by omega)]
        simp [hplen]
  · intro s p hlen hlast
    unfold resolve_path
    have h1 : (p ++ [47]).take 255 = p ++ [47] :=
      List.take_of_length_le (by simp; omega)
    have h2 : p.take 255 = p := List.take_of_length_le (by omega)
    rw [h1, h2]
    unfold stripSlash
    rw [if_pos (by simp [List.getLast?_concat]), if_neg (by simpa using hlast),
      List.dropLast_concat]

/-- Witness for C2: the directory entry `dir/` of the listing archive and
the query `dir` (with and without trailing slash). -/
theorem find_header_dir_trailing_slash_witness :
    (headerMatches (blockAt tar7 0) [100, 105, 114] = true ↔
      header_path (blockAt tar7 0) = [100, 105, 114] ∨
        ((header_path (blockAt tar7 0)).getLast? = some 47 ∧
          [100, 105, 114] = (header_path (blockAt tar7 0)).dropLast)) ∧
    resolve_path tar7 ([100, 105, 114] ++ [47]) = resolve_path tar7 [100, 105, 114] :=
  ⟨find_header_dir_trailing_slash.1 (blockAt tar7 0) [100, 105, 114]
      (by decide) (by decide),
    find_header_dir_trailing_slash.2 tar7 [100, 105, 114] (by decide) (by decide)⟩

/-- C5: a `read_file` call on a resolved regular file at a valid offset,
when the underlying read completes fully, writes `min(size - offset, cap)`
bytes and returns the count of bytes still unread (zero at end of file). -/
theorem read_file_partial_reads (s : ByteStream) (path blk rp : List Nat)
    (doff offset cap : Nat)
    (hres : resolve_path s path = some (blk, doff, rp))
    (htype : blk.getD 156 0 = 48 ∨ blk.getD 156 0 = 0)
    (hoff : offset ≤ TAR_INT blk 124)
    (hfull : doff + offset + min (TAR_INT blk 124 - offset) cap ≤ s.len) :
    read_file s path offset cap =
      (((TAR_INT blk 124 - offset - min (TAR_INT blk 124 - offset) cap : Nat) : Int),
        some (min (TAR_INT blk 124 - offset) cap)) := by
  have ht : (blk.getD 156 0 == 48 || blk.getD 156 0 == 0) = true := by
    rcases htype with h | h <;> (rw [h]; rfl)
  simp only [read_file, hres]
  rw [if_neg (by rw [ht]; simp)]
  rw [if_neg (by simp only [decide_eq_true_eq]; omega)]
  have hr : streamRead s (doff + offset) (min (TAR_INT blk 124 - offset) cap)
      = min (TAR_INT blk 124 - offset) cap := by
    unfold streamRead
    omega
  rw [hr]
  by_cases hlt : offset + min (TAR_INT blk 124 - offset) cap < TAR_INT blk 124
  · rw [if_pos (by simp only [decide_eq_true_eq]; omega)]
    simp only [Prod.mk.injEq]
    constructor
    · omega
    · trivial
  · rw [if_neg (by simp only [decide_eq_true_eq]; omega)]
    simp only [Prod.mk.injEq]
    constructor
    · omega
    · trivial

/-- Witness for C5: the spec's streaming example — a size-10 file read with
capacity 4 at offsets 0, 4, 8 writes 4, 4, 2 bytes and returns 6, 2, 0. -/
theorem read_file_partial_reads_witness :
    read_file tarF [102] 0 4 = (6, some 4) ∧ read_file tarF [102] 4 4 = (2, some 4) ∧
      read_file tarF [102] 8 4 = (0, some 2) :=
  ⟨(read_file_partial_reads tarF [102] (blockAt tarF 0) [102] 512 0 4
      (by decide) (by decide) (by decide) (by decide)).trans (by decide),
    (read_file_partial_reads tarF [102] (blockAt tarF 0) [102] 512 4 4
      (by decide) (by decide) (by decide) (by decide)).trans (by decide),
    (read_file_partial_reads tarF [102] (blockAt tarF 0) [102] 512 8 4
      (by decide) (by decide) (by decide) (by decide)).trans (by decide)⟩

/-- C6: on a resolved regular file, an offset strictly beyond the declared
size fails with `-2` writing nothing, while an offset exactly at the size
succeeds with zero bytes written and zero remaining. -/
theorem read_file_offset_bounds (s : ByteStream) (path blk rp : List Nat)
    (doff offset cap : Nat)
    (hres : resolve_path s path = some (blk, doff, rp))
    (htype : blk.getD 156 0 = 48 ∨ blk.getD 156 0 = 0) :
    (TAR_INT blk 124 < offset → read_file s path offset cap = (-2, none)) ∧
    (offset = TAR_INT blk 124 → read_file s path offset cap = (0, some 0)) := by
  have ht : (blk.getD 156 0 == 48 || blk.getD 156 0 == 0) = true := by
    rcases htype with h | h <;> (rw [h]; rfl)
  constructor
  · intro hgt
    simp only [read_file, hres]
    rw [if_neg (by rw [ht]; simp)]
    rw [if_pos (by simp only [decide_eq_true_eq]; omega)]
  · intro heq
    simp only [read_file, hres]
    rw [if_neg (by rw [ht]; simp)]
    rw [if_neg (by simp only [decide_eq_true_eq]; omega)]
    have h0 : min (TAR_INT blk 124 - offset) cap = 0 := by omega
    rw [h0]
    have hr : streamRead s (doff + offset) 0 = 0 := by
      unfold streamRead
      omega
    rw [hr]
    rw [if_neg (by simp only [decide_eq_true_eq]; omega)]

/-- Witness for C6: the size-10 file — offset 11 is rejected with `-2`,
offset 10 succeeds with zero bytes and zero remaining. -/
theorem read_file_offset_bounds_witness :
    read_file tarF [102] 11 4 = (-2, none) ∧ read_file tarF [102] 10 4 = (0, some 0) :=
  ⟨(read_file_offset_bounds tarF [102] (blockAt tarF 0) [102] 512 11 4
      (by decide) (by decide)).1 (by decide),
    (read_file_offset_bounds tarF [102] (blockAt tarF 0) [102] 512 10 4
      (by decide) (by decide)).2 (by decide)⟩

/-- C7: the scan of `list` selects exactly the entries whose reconstructed
path satisfies the spec's child condition for the base (starts with it,
differs from it, remainder slash-free except for a possible trailing
slash), in stream order, truncated at capacity. -/
theorem list_children_iff (s : ByteStream) (base : List Nat) (cap : Nat)
    (hb : 0 ∉ base) :
    listAux base cap (s.len + 1) s 0 [] 0 =
      ((((scanBlocks s).map header_path).filter
          (fun nm => decide (childSpec base nm))).take cap,
        min ((((scanBlocks s).map header_path).filter
          (fun nm => decide (childSpec base nm))).length) cap) := by
  have h := listAux_eq (s.len + 1) s 0 base cap [] 0 (by omega) rfl (by omega)
  have hcongr : ((scanBlocksAux (s.len + 1) s 0).map header_path).filter (childSel base)
      = ((scanBlocksAux (s.len + 1) s 0).map header_path).filter
          (fun nm => decide (childSpec base nm)) := by
    apply List.filter_congr
    intro nm hnm
    obtain ⟨blk, hblk, hnm2⟩ := List.mem_map.1 hnm
    subst hnm2
    have hn : 0 ∉ header_path blk := fun hmem => header_path_nf blk 0 hmem rfl
    have hiff := childSel_iff base (header_path blk) hb hn
    apply Bool.eq_iff_iff.mpr
    simpa using hiff
  unfold scanBlocks
  rw [h, hcongr]
  simp

/-- Witness for C7: the spec's example — listing `dir/` in the archive with
entries `dir/`, `dir/a`, `dir/b`, `dir/c/`, `dir/c/d`, `dir/e/` yields
exactly `dir/a`, `dir/b`, `dir/c/`, `dir/e/` and never `dir/c/d`. -/
theorem list_children_iff_witness :
    listAux [100, 105, 114, 47] 8 (tar7.len + 1) tar7 0 [] 0 =
      ([[100, 105, 114, 47, 97], [100, 105, 114, 47, 98],
        [100, 105, 114, 47, 99, 47], [100, 105, 114, 47, 101, 47]], 4) :=
  (list_children_iff tar7 [100, 105, 114, 47] 8 (by decide)).trans (by decide)

/-- C8: `list` never writes past the caller's capacity: the returned
entries are exactly as many as the reported count, the count is bounded by
the capacity, and equals the minimum of capacity and the number of
qualifying children (the count increments only when an entry is written). -/
theorem list_count_capped (s : ByteStream) (path : List Nat) (cap : Nat)
    (es : List (List Nat)) (n : Nat) (h : list s path cap = some (es, n)) :
    es.length = n ∧ n ≤ cap ∧
      n = min ((((scanBlocks s).map header_path).filter
        (childSel (listBase s path))).length) cap := by
  have key : ∀ base : List Nat, listAux base cap (s.len + 1) s 0 [] 0 =
      ((((scanBlocks s).map header_path).filter (childSel base)).take cap,
        min ((((scanBlocks s).map header_path).filter (childSel base)).length) cap) := by
    intro base
    have hx := listAux_eq (s.len + 1) s 0 base cap [] 0 (by omega) rfl (by omega)
    unfold scanBlocks
    simpa using hx
  by_cases hp : (path != []) = true
  · cases hres : resolve_path s path with
    | none =>
      unfold list at h
      rw [if_pos hp] at h
      simp only [hres] at h
      exact Option.noConfusion h
    | some trip =>
      obtain ⟨blk, off, rp⟩ := trip
      by_cases hty : blk.getD 156 0 = 53
      · unfold list at h
        rw [if_pos hp] at h
        simp only [hres] at h
        have hbne : (blk.getD 156 0 != 53) = false := by rw [hty]; rfl
        rw [hbne, if_neg (by simp)] at h
        rw [key (normalizeSlash rp)] at h
        have h2 := Option.some.inj h
        rw [Prod.mk.injEq] at h2
        obtain ⟨hes, hn⟩ := h2
        subst hes
        subst hn
        refine ⟨?_, Nat.min_le_right _ _, ?_⟩
        · rw [List.length_take]
          exact Nat.min_comm _ _
        · unfold listBase
          rw [if_pos hp]
          simp only [hres]
      · unfold list at h
        rw [if_pos hp] at h
        simp only [hres] at h
        have hbne : (blk.getD 156 0 != 53) = true := by simpa using hty
        rw [if_pos hbne] at h
        simp at h
  · unfold list at h
    rw [if_neg hp] at h
    rw [key []] at h
    have h2 := Option.some.inj h
    rw [Prod.mk.injEq] at h2
    obtain ⟨hes, hn⟩ := h2
    subst hes
    subst hn
    refine ⟨?_, Nat.min_le_right _ _, ?_⟩
    · rw [List.length_take]
      exact Nat.min_comm _ _
    · unfold listBase
      rw [if_neg hp]

/-- Witness for C8: listing `dir` in the example archive with capacity 2
writes exactly the first two children and reports the capacity-bounded
count 2 = min 4 2. -/
theorem list_count_capped_witness :
    ([[100, 105, 114, 47, 97], [100, 105, 114, 47, 98]] : List (List Nat)).length = 2 ∧
      2 ≤ 2 ∧ 2 = min ((((scanBlocks tar7).map header_path).filter
        (childSel (listBase tar7 [100, 105, 114]))).length) 2 :=
  list_count_capped tar7 [100, 105, 114] 2 _ 2 (by decide)

/-- C9: for a non-empty query, `list` resolves it through the link
resolver; it reports NotFound when resolution fails or the resolved entry
is not a directory, and otherwise scans with the resolved canonical path
(normalised to end with a slash) as the filter base — so listing a symlink
to a directory lists the target directory. -/
theorem list_resolves_then_filters (s : ByteStream) (path : List Nat) (cap : Nat)
    (hne : path ≠ []) :
    (resolve_path s path = none → list s path cap = none) ∧
    (∀ blk off rp, resolve_path s path = some (blk, off, rp) →
      blk.getD 156 0 ≠ 53 → list s path cap = none) ∧
    (∀ blk off rp, resolve_path s path = some (blk, off, rp) →
      blk.getD 156 0 = 53 →
      list s path cap = some (listAux (normalizeSlash rp) cap (s.len + 1) s 0 [] 0)) := by
  have hp : (path != []) = true := by simpa using hne
  refine ⟨?_, ?_, ?_⟩
  · intro h
    unfold list
    rw [if_pos hp]
    simp only [h]
  · intro blk off rp h ht
    unfold list
    rw [if_pos hp]
    simp only [h]
    have hbne : (blk.getD 156 0 != 53) = true := by simpa using ht
    rw [if_pos hbne]
  · intro blk off rp h ht
    unfold list
    rw [if_pos hp]
    simp only [h]
    have hbne : (blk.getD 156 0 != 53) = false := by rw [ht]; rfl
    rw [hbne, if_neg (by simp)]

/-- Witness for C9: in the archive with directory `d/`, file `d/x` and
symlink `s -> d`, listing the symlink lists the directory's contents. -/
theorem list_resolves_then_filters_witness :
    list tarA [115] 8 = some ([[100, 47, 120]], 1) ∧
      list tarA [115] 8 = list tarA [100] 8 :=
  ⟨((list_resolves_then_filters tarA [115] 8 (by decide)).2.2 (blockAt tarA 0) 512
      [100, 47] (by decide) (by decide)).trans (by decide),
    by decide⟩

/-- C10: the type predicates use a single `find_header` pass and test only
the located entry's own typeflag, so on a path whose entry is a symbolic
link, `is_dir` and `is_file` return 0 while `is_symlink` and `exists`
return nonzero — links are not followed. -/
theorem type_predicates_no_follow (s : ByteStream) (path blk : List Nat) (off : Nat)
    (hfind : find_header s path = some (blk, off)) (hsym : blk.getD 156 0 = 50) :
    is_dir s path = false ∧ is_file s path = false ∧ is_symlink s path = true ∧
      tar_exists s path = true := by
  unfold is_dir is_file is_symlink tar_exists
  simp only [hfind]
  rw [hsym]
  simp

/-- Witness for C10: the symlink `s -> d` whose target is a directory:
`is_dir`/`is_file` reject it, `is_symlink`/`exists` accept it, while the
target itself is a directory. -/
theorem type_predicates_no_follow_witness :
    is_dir tarA [115] = false ∧ is_file tarA [115] = false ∧
      is_symlink tarA [115] = true ∧ tar_exists tarA [115] = true ∧
      is_dir tarA [100] = true := by
  have h := type_predicates_no_follow tarA [115] (blockAt tarA 1024) 1536
    (by decide) (by decide)
  exact ⟨h.1, h.2.1, h.2.2.1, h.2.2.2, by decide⟩
